import Mathlib

/-!
Shallow embedding of the e-commerce API's core stock-reservation and
order-lifecycle logic (single-file Express/Mongoose server).  Products and
orders live in a Mongo collection, modelled here as lists of records with a
unique identifier; a `updateOne` with filter `\x7b _id, stock: \x7b $gte: q \x7d \x7d`
becomes a conditional in-place decrement of the first matching record.
Money and stock are plain numbers in the source; they are modelled as `Int`.
-/

namespace Ecom

abbrev ProductId := Nat

structure Product where
  id : ProductId
  name : String
  price : Int
  stock : Int
  deriving Repr, DecidableEq

structure ItemReq where
  productId : ProductId
  quantity : Int
  deriving Repr, DecidableEq

structure Enriched where
  product : Product
  quantity : Int
  priceAtPurchase : Int
  deriving Repr, DecidableEq

structure StockItem where
  product : ProductId
  quantity : Int
  deriving Repr, DecidableEq

inductive ApiError where
  | productsNotFound
  | productNotFound (pid : ProductId)
  | insufficientStock (pid : ProductId)
  | reserveFailed (pid : ProductId)
  | badRequest
  | orderNotFound
  | cannotCancelShipped
  | cannotChangeAddress
  deriving Repr, DecidableEq

inductive OrderStatus where
  | pending
  | confirmed
  | shipped
  | out_for_delivery
  | delivered
  | cancelled
  deriving Repr, DecidableEq

structure OrderItem where
  product : ProductId
  quantity : Int
  priceAtPurchase : Int
  deriving Repr, DecidableEq

structure Order where
  id : Nat
  customerId : Nat
  items : List OrderItem
  totalAmount : Int
  shippingAddress : Option String
  status : OrderStatus
  createdAt : Int
  updatedAt : Int
  estimatedDelivery : Option Int
  deriving Repr, DecidableEq

/-- Stock of the (unique) product with the given id, if present. -/
def stockOf : List Product → ProductId → Option Int
  | [], _ => none
  | p :: rest, pid => if p.id = pid then some p.stock else stockOf rest pid

/-- Inner loop of calculateTotalAndCheckStock: for each requested item, find
the product among the fetched ones, check stock sufficiency, and snapshot the
price. -/
def enrichItems (products : List Product) : List ItemReq → Except ApiError (List Enriched)
  | [] => .ok []
  | item :: rest =>
    match products.find? (fun p => p.id == item.productId) with
    | none => .error (.productNotFound item.productId)
    | some p =>
      if p.stock < item.quantity then .error (.insufficientStock p.id)
      else
        match enrichItems products rest with
        | .error e => .error e
        | .ok tail =>
          .ok ({ product := p, quantity := item.quantity, priceAtPurchase := p.price } :: tail)

/-- calculateTotalAndCheckStock: fetch all products whose id occurs in the
request (a Mongo $in query returns each matching document once), reject if the
count of fetched documents differs from the length of the request list, then
enrich each item and total the prices. -/
def calculateTotalAndCheckStock (store : List Product) (items : List ItemReq) :
    Except ApiError (Int × List Enriched) :=
  let productIds := items.map (fun i => i.productId)
  let products := store.filter (fun p => productIds.contains p.id)
  if products.length ≠ productIds.length then .error .productsNotFound
  else
    match enrichItems products items with
    | .error e => .error e
    | .ok enriched =>
      .ok ((enriched.map (fun e => e.product.price * e.quantity)).sum, enriched)

/-- One conditional decrement: updateOne with filter id = pid and stock ≥ q,
decrementing stock by q; the Bool is the matchedCount (0 or 1). -/
def decOne : List Product → ProductId → Int → List Product × Bool
  | [], _, _ => ([], false)
  | p :: rest, pid, q =>
    if p.id = pid ∧ q ≤ p.stock then
      ({ p with stock := p.stock - q } :: rest, true)
    else
      let r := decOne rest pid q
      (p :: r.1, r.2)

/-- All per-item conditional decrements of reduceStock, applied in order,
collecting each update's matched flag. -/
def applyDecs : List Product → List StockItem → List Product × List Bool
  | store, [] => (store, [])
  | store, it :: rest =>
    let r1 := decOne store it.product it.quantity
    let r2 := applyDecs r1.1 rest
    (r2.1, r1.2 :: r2.2)

/-- The post-update check of reduceStock: the first item whose update matched
nothing, if any. -/
def firstFailure : List StockItem → List Bool → Option ProductId
  | it :: rest, m :: ms => if m then firstFailure rest ms else some it.product
  | _, _ => none

def Enriched.toStockItem (e : Enriched) : StockItem :=
  { product := e.product.id, quantity := e.quantity }

/-- reduceStock: issue every conditional decrement, then throw on the first
item whose update matched nothing.  Note that all updates are applied before
the check, and nothing is re-incremented on failure. -/
def reduceStock (store : List Product) (enrichedItems : List Enriched) :
    List Product × Except ApiError Unit :=
  let pairs := enrichedItems.map Enriched.toStockItem
  let r := applyDecs store pairs
  match firstFailure pairs r.2 with
  | some pid => (r.1, .error (.reserveFailed pid))
  | none => (r.1, .ok ())

/-- One unconditional increment: updateOne with filter id = pid, incrementing
stock by q; a missing product makes it a no-op. -/
def incOne : List Product → ProductId → Int → List Product
  | [], _, _ => []
  | p :: rest, pid, q =>
    if p.id = pid then { p with stock := p.stock + q } :: rest
    else p :: incOne rest pid q

/-- restoreStock: unconditionally increment each item's product stock; it has
no failure path. -/
def restoreStock (store : List Product) (items : List StockItem) : List Product :=
  items.foldl (fun s it => incOne s it.product it.quantity) store

def findOrder (orders : List Order) (oid : Nat) : Option Order :=
  orders.find? (fun o => o.id == oid)

/-- order.save(): replace the stored document having this order's id. -/
def saveOrder (orders : List Order) (o : Order) : List Order :=
  orders.map (fun x => if x.id = o.id then o else x)

structure CreateOrderReq where
  customerId : Nat
  items : List ItemReq
  shippingAddress : Option String
  deriving Repr, DecidableEq

structure CreateOrderResp where
  orderId : Nat
  status : OrderStatus
  totalAmount : Int
  deriving Repr, DecidableEq

def fiveDaysMs : Int := 5 * 24 * 60 * 60 * 1000

/-- The order document built by POST /v1/orders on the success path. -/
def builtOrder (now : Int) (nextId : Nat) (req : CreateOrderReq) (total : Int)
    (enriched : List Enriched) : Order :=
  { id := nextId
    customerId := req.customerId
    items := enriched.map (fun e =>
      { product := e.product.id, quantity := e.quantity,
        priceAtPurchase := e.priceAtPurchase })
    totalAmount := total
    shippingAddress := req.shippingAddress
    status := .confirmed
    createdAt := now
    updatedAt := now
    estimatedDelivery := some (now + fiveDaysMs) }

/-- POST /v1/orders: guard the request (a falsy customer_id or empty item
array is rejected), validate and price, reserve stock, then build and save a
confirmed order with estimatedDelivery = now + 5 days. -/
def createOrder (store : List Product) (orders : List Order) (now : Int) (nextId : Nat)
    (req : CreateOrderReq) : (List Product × List Order) × Except ApiError CreateOrderResp :=
  if req.customerId = 0 ∨ req.items = [] then ((store, orders), .error .badRequest)
  else
    match calculateTotalAndCheckStock store req.items with
    | .error e => ((store, orders), .error e)
    | .ok te =>
      match reduceStock store te.2 with
      | (store1, .error e) => ((store1, orders), .error e)
      | (store1, .ok _) =>
        let order := builtOrder now nextId req te.1 te.2
        ((store1, orders ++ [order]),
          .ok { orderId := nextId, status := order.status, totalAmount := order.totalAmount })

/-- The guard used by the cancel, delete and address branches. -/
def blockedForCancel (st : OrderStatus) : Bool :=
  st == .shipped || st == .out_for_delivery || st == .delivered

/-- PUT /v1/orders/:id with status cancelled: refuse if shipped or delivered,
otherwise restore stock for every item and mark the order cancelled. -/
def cancelOrder (store : List Product) (orders : List Order) (now : Int) (oid : Nat) :
    (List Product × List Order) × Except ApiError (Nat × OrderStatus) :=
  match findOrder orders oid with
  | none => ((store, orders), .error .orderNotFound)
  | some o =>
    if blockedForCancel o.status then ((store, orders), .error .cannotCancelShipped)
    else
      let pairs := o.items.map (fun it =>
        ({ product := it.product, quantity := it.quantity } : StockItem))
      let store1 := restoreStock store pairs
      let o1 := { o with status := OrderStatus.cancelled, updatedAt := now }
      ((store1, saveOrder orders o1), .ok (oid, o1.status))

/-- PUT /v1/orders/:id generic status branch: set the status with no
transition validation. -/
def setStatus (orders : List Order) (now : Int) (oid : Nat) (st : OrderStatus) :
    List Order × Except ApiError (Nat × OrderStatus) :=
  match findOrder orders oid with
  | none => (orders, .error .orderNotFound)
  | some o =>
    let o1 := { o with status := st, updatedAt := now }
    (saveOrder orders o1, .ok (oid, st))

/-- PUT /v1/orders/:id shipping_address branch. -/
def updateShippingAddress (orders : List Order) (now : Int) (oid : Nat) (addr : String) :
    List Order × Except ApiError (Nat × String) :=
  match findOrder orders oid with
  | none => (orders, .error .orderNotFound)
  | some o =>
    if blockedForCancel o.status then (orders, .error .cannotChangeAddress)
    else
      let o1 := { o with shippingAddress := some addr, updatedAt := now }
      (saveOrder orders o1, .ok (oid, addr))

/-- Total quantity of the successful decrements that target a given product,
read off a step list and its matched flags. -/
def successQty (pid : ProductId) : List StockItem → List Bool → Int
  | it :: rest, m :: ms =>
    (if m = true ∧ it.product = pid then it.quantity else 0) + successQty pid rest ms
  | _, _ => 0

/-- Total quantity a release adds to a given product. -/
def releasedQty (pid : ProductId) : List StockItem → Int
  | [] => 0
  | it :: rest => (if it.product = pid then it.quantity else 0) + releasedQty pid rest

/-- Sum of priceAtPurchase × quantity over an order's items. -/
def itemsTotal (items : List OrderItem) : Int :=
  (items.map (fun it => it.priceAtPurchase * it.quantity)).sum

theorem decOne_ids (s : List Product) (pid : ProductId) (q : Int) :
    ((decOne s pid q).1).map (fun p => p.id) = s.map (fun p => p.id) := by
  induction s with
  | nil => rfl
  | cons p rest ih =>
    by_cases h : p.id = pid ∧ q ≤ p.stock
    · simp [decOne, h]
    · simp [decOne, h, ih]

theorem decOne_true_mem (s : List Product) (pid : ProductId) (q : Int)
    (h : (decOne s pid q).2 = true) : pid ∈ s.map (fun p => p.id) := by
  induction s with
  | nil => simp [decOne] at h
  | cons p rest ih =>
    by_cases hc : p.id = pid ∧ q ≤ p.stock
    · simp [hc.1]
    · simp only [decOne, if_neg hc] at h
      simpa using Or.inr (ih h)

theorem decOne_not_mem (s : List Product) (pid : ProductId) (q : Int)
    (h : pid ∉ s.map (fun p => p.id)) : decOne s pid q = (s, false) := by
  induction s with
  | nil => rfl
  | cons p rest ih =>
    simp only [List.map_cons, List.mem_cons, not_or] at h
    have hc : ¬ (p.id = pid ∧ q ≤ p.stock) := fun hcc => h.1 hcc.1.symm
    simp [decOne, hc, ih h.2]

theorem incOne_cons_pos (p : Product) (rest : List Product) (pid : ProductId) (q : Int)
    (h : p.id = pid) :
    incOne (p :: rest) pid q = { p with stock := p.stock + q } :: rest := by
  simp [incOne, h]

theorem incOne_cons_neg (p : Product) (rest : List Product) (pid : ProductId) (q : Int)
    (h : ¬ p.id = pid) :
    incOne (p :: rest) pid q = p :: incOne rest pid q := by
  simp [incOne, h]

theorem dec_inc_cancel (s s1 : List Product) (pid : ProductId) (q : Int)
    (hnd : (s.map (fun p => p.id)).Nodup)
    (h : decOne s pid q = (s1, true)) : incOne s1 pid q = s := by
  induction s generalizing s1 with
  | nil => simp [decOne] at h
  | cons p rest ih =>
    by_cases hc : p.id = pid ∧ q ≤ p.stock
    · simp only [decOne, if_pos hc] at h
      obtain ⟨h1, _⟩ := Prod.mk.injEq .. ▸ h
      subst h1
      rw [incOne_cons_pos { p with stock := p.stock - q } rest pid q hc.1]
      have hst : p.stock - q + q = p.stock := by omega
      show ({ p with stock := p.stock - q + q } : Product) :: rest = p :: rest
      rw [hst]
    · simp only [decOne, if_neg hc] at h
      obtain ⟨h1, h2⟩ := Prod.mk.injEq .. ▸ h
      subst h1
      have hmem : pid ∈ rest.map (fun p => p.id) :=
        decOne_true_mem rest pid q (by rw [h2])
      simp only [List.map_cons, List.nodup_cons] at hnd
      have hne : p.id ≠ pid := fun he => hnd.1 (he ▸ hmem)
      have hrec : decOne rest pid q = ((decOne rest pid q).1, true) := by
        rw [← h2]
      simp [incOne, hne, ih _ hnd.2 hrec]

theorem incOne_comm (s : List Product) (a b : ProductId) (qa qb : Int) :
    incOne (incOne s a qa) b qb = incOne (incOne s b qb) a qa := by
  induction s with
  | nil => rfl
  | cons p rest ih =>
    by_cases ha : p.id = a <;> by_cases hb : p.id = b
    · rw [incOne_cons_pos _ _ _ _ ha, incOne_cons_pos _ _ _ _ hb,
        incOne_cons_pos _ _ _ _ (show ({ p with stock := p.stock + qa } : Product).id = b from hb),
        incOne_cons_pos _ _ _ _ (show ({ p with stock := p.stock + qb } : Product).id = a from ha)]
      have hst : p.stock + qa + qb = p.stock + qb + qa := by omega
      show ({ p with stock := p.stock + qa + qb } : Product) :: rest
          = ({ p with stock := p.stock + qb + qa } : Product) :: rest
      rw [hst]
    · rw [incOne_cons_pos _ _ _ _ ha, incOne_cons_neg _ _ _ _ hb,
        incOne_cons_neg _ _ _ _ (show ¬ ({ p with stock := p.stock + qa } : Product).id = b from hb),
        incOne_cons_pos _ _ _ _ ha]
    · rw [incOne_cons_neg _ _ _ _ ha, incOne_cons_pos _ _ _ _ hb,
        incOne_cons_pos _ _ _ _ hb,
        incOne_cons_neg _ _ _ _ (show ¬ ({ p with stock := p.stock + qb } : Product).id = a from ha)]
    · rw [incOne_cons_neg _ _ _ _ ha, incOne_cons_neg _ _ _ _ hb,
        incOne_cons_neg _ _ _ _ hb, incOne_cons_neg _ _ _ _ ha, ih]

theorem restoreStock_cons (s : List Product) (it : StockItem) (items : List StockItem) :
    restoreStock s (it :: items) = restoreStock (incOne s it.product it.quantity) items := rfl

theorem restore_incOne_swap (items : List StockItem) (s : List Product)
    (pid : ProductId) (q : Int) :
    restoreStock (incOne s pid q) items = incOne (restoreStock s items) pid q := by
  induction items generalizing s with
  | nil => rfl
  | cons it rest ih =>
    rw [restoreStock_cons, restoreStock_cons, incOne_comm, ih]

theorem applyDecs_ids (items : List StockItem) (s : List Product) :
    ((applyDecs s items).1).map (fun p => p.id) = s.map (fun p => p.id) := by
  induction items generalizing s with
  | nil => rfl
  | cons it rest ih =>
    simp only [applyDecs]
    rw [ih, decOne_ids]

theorem applyDecs_len (items : List StockItem) (s : List Product) :
    ((applyDecs s items).2).length = items.length := by
  induction items generalizing s with
  | nil => rfl
  | cons it rest ih => simp [applyDecs, ih]

theorem firstFailure_none_all (items : List StockItem) (ms : List Bool)
    (h : firstFailure items ms = none) (hl : items.length = ms.length) :
    ∀ m ∈ ms, m = true := by
  induction items generalizing ms with
  | nil =>
    cases ms with
    | nil => intro m hm; simp at hm
    | cons m ms' => simp at hl
  | cons it rest ih =>
    cases ms with
    | nil => simp at hl
    | cons m ms' =>
      simp only [firstFailure] at h
      by_cases hm : m = true
      · intro x hx
        rcases List.mem_cons.1 hx with hx | hx
        · exact hx ▸ hm
        · exact ih ms' (by simpa [hm] using h) (by simpa using hl) x hx
      · simp [Bool.eq_false_iff.2 hm] at h

theorem applyDecs_restore (items : List StockItem) (s s2 : List Product) (ms : List Bool)
    (hnd : (s.map (fun p => p.id)).Nodup)
    (h : applyDecs s items = (s2, ms)) (hall : ∀ m ∈ ms, m = true) :
    restoreStock s2 items = s := by
  induction items generalizing s s2 ms with
  | nil =>
    simp only [applyDecs] at h
    obtain ⟨h1, _⟩ := Prod.mk.injEq .. ▸ h
    simp [restoreStock, ← h1]
  | cons it rest ih =>
    simp only [applyDecs] at h
    obtain ⟨h1, h2⟩ := Prod.mk.injEq .. ▸ h
    have hm : (decOne s it.product it.quantity).2 = true := by
      apply hall
      rw [← h2]
      exact List.mem_cons_self _ _
    have hms : ∀ m ∈ (applyDecs (decOne s it.product it.quantity).1 rest).2, m = true := by
      intro m hmm
      apply hall
      rw [← h2]
      exact List.mem_cons_of_mem _ hmm
    have hnd1 : (((decOne s it.product it.quantity).1).map (fun p => p.id)).Nodup := by
      rw [decOne_ids]; exact hnd
    have hrec := ih (decOne s it.product it.quantity).1 s2
      (applyDecs (decOne s it.product it.quantity).1 rest).2 hnd1 (by rw [← h1]) hms
    rw [restoreStock_cons, restore_incOne_swap, hrec]
    exact dec_inc_cancel s _ it.product it.quantity hnd (by rw [← hm])

theorem stockOf_decOne_ne (s : List Product) (pid pid1 : ProductId) (q : Int)
    (h : pid ≠ pid1) : stockOf ((decOne s pid1 q).1) pid = stockOf s pid := by
  induction s with
  | nil => rfl
  | cons p rest ih =>
    by_cases hc : p.id = pid1 ∧ q ≤ p.stock
    · have hne : ¬ p.id = pid := fun he => h (he.symm.trans hc.1)
      simp only [decOne, if_pos hc]
      show stockOf ({ p with stock := p.stock - q } :: rest) pid = stockOf (p :: rest) pid
      simp [stockOf, hne]
    · simp only [decOne, if_neg hc]
      show stockOf (p :: (decOne rest pid1 q).1) pid = stockOf (p :: rest) pid
      by_cases hp : p.id = pid
      · simp [stockOf, hp]
      · simp [stockOf, hp, ih]

theorem decOne_self_matched (s : List Product) (pid : ProductId) (q x : Int)
    (hs : stockOf s pid = some x) (hq : q ≤ x) :
    (decOne s pid q).2 = true ∧ stockOf (decOne s pid q).1 pid = some (x - q) := by
  induction s with
  | nil => simp [stockOf] at hs
  | cons p rest ih =>
    by_cases hp : p.id = pid
    · have hx : p.stock = x := by
        simp [stockOf, hp] at hs
        omega
      have hc : p.id = pid ∧ q ≤ p.stock := ⟨hp, by omega⟩
      constructor
      · simp [decOne, hc]
      · simp only [decOne, if_pos hc]
        show stockOf ({ p with stock := p.stock - q } :: rest) pid = some (x - q)
        simp [stockOf, hp, hx]
    · have hs1 : stockOf rest pid = some x := by simpa [stockOf, hp] using hs
      have hc : ¬ (p.id = pid ∧ q ≤ p.stock) := fun hcc => hp hcc.1
      simp only [decOne, if_neg hc]
      refine ⟨(ih hs1).1, ?_⟩
      show stockOf (p :: (decOne rest pid q).1) pid = some (x - q)
      simpa [stockOf, hp] using (ih hs1).2

theorem decOne_self_unmatched (s : List Product) (pid : ProductId) (q x : Int)
    (hnd : (s.map (fun p => p.id)).Nodup)
    (hs : stockOf s pid = some x) (hq : x < q) :
    decOne s pid q = (s, false) := by
  induction s with
  | nil => simp [stockOf] at hs
  | cons p rest ih =>
    simp only [List.map_cons, List.nodup_cons] at hnd
    by_cases hp : p.id = pid
    · have hx : p.stock = x := by
        simp [stockOf, hp] at hs
        omega
      have hc : ¬ (p.id = pid ∧ q ≤ p.stock) := fun hcc => by omega
      have hrest : decOne rest pid q = (rest, false) :=
        decOne_not_mem rest pid q (fun hm => hnd.1 (hp ▸ hm))
      simp [decOne, hc, hrest]
    · have hs1 : stockOf rest pid = some x := by simpa [stockOf, hp] using hs
      have hc : ¬ (p.id = pid ∧ q ≤ p.stock) := fun hcc => hp hcc.1
      simp [decOne, hc, ih hnd.2 hs1]

theorem incOne_stockOf_self (s : List Product) (pid : ProductId) (q x : Int)
    (hs : stockOf s pid = some x) : stockOf (incOne s pid q) pid = some (x + q) := by
  induction s with
  | nil => simp [stockOf] at hs
  | cons p rest ih =>
    by_cases hp : p.id = pid
    · have hx : p.stock = x := by
        simp [stockOf, hp] at hs
        omega
      rw [incOne_cons_pos _ _ _ _ hp]
      show stockOf ({ p with stock := p.stock + q } :: rest) pid = some (x + q)
      simp [stockOf, hp, hx]
    · have hs1 : stockOf rest pid = some x := by simpa [stockOf, hp] using hs
      rw [incOne_cons_neg _ _ _ _ hp]
      simpa [stockOf, hp] using ih hs1

theorem incOne_stockOf_ne (s : List Product) (pid pid1 : ProductId) (q : Int)
    (h : pid ≠ pid1) : stockOf (incOne s pid1 q) pid = stockOf s pid := by
  induction s with
  | nil => rfl
  | cons p rest ih =>
    by_cases hp : p.id = pid1
    · have hne : ¬ p.id = pid := fun he => h (he.symm.trans hp)
      rw [incOne_cons_pos _ _ _ _ hp]
      show stockOf ({ p with stock := p.stock + q } :: rest) pid = stockOf (p :: rest) pid
      simp [stockOf, hne]
    · rw [incOne_cons_neg _ _ _ _ hp]
      by_cases hpp : p.id = pid
      · simp [stockOf, hpp]
      · simp [stockOf, hpp, ih]

theorem stockOf_none_not_mem (s : List Product) (pid : ProductId)
    (h : stockOf s pid = none) : ∀ p ∈ s, p.id ≠ pid := by
  induction s with
  | nil => intro p hp; simp at hp
  | cons p rest ih =>
    by_cases hp : p.id = pid
    · simp [stockOf, hp] at h
    · intro x hx
      rcases List.mem_cons.1 hx with hx | hx
      · exact hx ▸ hp
      · exact ih (by simpa [stockOf, hp] using h) x hx

theorem incOne_of_not_mem (s : List Product) (pid : ProductId) (q : Int)
    (h : ∀ p ∈ s, p.id ≠ pid) : incOne s pid q = s := by
  induction s with
  | nil => rfl
  | cons p rest ih =>
    rw [incOne_cons_neg _ _ _ _ (h p (List.mem_cons_self p rest))]
    rw [ih (fun x hx => h x (List.mem_cons_of_mem p hx))]

theorem restore_stockOf (items : List StockItem) (s : List Product)
    (pid : ProductId) (x : Int) (hs : stockOf s pid = some x) :
    stockOf (restoreStock s items) pid = some (x + releasedQty pid items) := by
  induction items generalizing s x with
  | nil => simpa [restoreStock, releasedQty]
  | cons it rest ih =>
    rw [restoreStock_cons]
    by_cases hp : it.product = pid
    · have h1 : stockOf (incOne s it.product it.quantity) pid = some (x + it.quantity) :=
        hp ▸ incOne_stockOf_self s it.product it.quantity x (hp ▸ hs)
      have h2 := ih (incOne s it.product it.quantity) (x + it.quantity) h1
      rw [h2]
      simp only [releasedQty, if_pos hp]
      congr 1
      omega
    · have h1 : stockOf (incOne s it.product it.quantity) pid = stockOf s pid :=
        incOne_stockOf_ne s pid it.product it.quantity (fun he => hp he.symm)
      have h2 := ih (incOne s it.product it.quantity) x (h1.trans hs)
      rw [h2]
      simp only [releasedQty, if_neg hp]
      congr 1
      omega

theorem successQty_cons (pid itp : ProductId) (itq : Int) (rest : List StockItem)
    (m : Bool) (ms : List Bool) :
    successQty pid (⟨itp, itq⟩ :: rest) (m :: ms)
      = (if m = true ∧ itp = pid then itq else 0) + successQty pid rest ms := rfl

theorem applyDecs_bound (steps : List StockItem) (s s1 : List Product)
    (ms : List Bool) (pid : ProductId) (bigS : Int)
    (hnd : (s.map (fun p => p.id)).Nodup)
    (hs : stockOf s pid = some bigS) (h0 : 0 ≤ bigS)
    (h : applyDecs s steps = (s1, ms)) :
    stockOf s1 pid = some (bigS - successQty pid steps ms) ∧
      0 ≤ bigS - successQty pid steps ms ∧ successQty pid steps ms ≤ bigS := by
  induction steps generalizing s s1 ms bigS with
  | nil =>
    simp only [applyDecs] at h
    obtain ⟨h1, h2⟩ := Prod.mk.injEq .. ▸ h
    subst h1
    subst h2
    refine ⟨by rw [hs]; simp [successQty], ?_, ?_⟩ <;> simp [successQty] <;> omega
  | cons it rest ih =>
    obtain ⟨itp, itq⟩ := it
    simp only [applyDecs] at h
    obtain ⟨h1, h2⟩ := Prod.mk.injEq .. ▸ h
    have hnd1 : (((decOne s itp itq).1).map (fun p => p.id)).Nodup := by
      rw [decOne_ids]; exact hnd
    by_cases hp : itp = pid
    · subst hp
      by_cases hq : itq ≤ bigS
      · have hm := decOne_self_matched s itp itq bigS hs hq
        obtain ⟨ha, hb, hcb⟩ := ih (decOne s itp itq).1 s1
          (applyDecs (decOne s itp itq).1 rest).2 (bigS - itq)
          hnd1 hm.2 (by omega) (by rw [← h1])
        have hsq : successQty itp (⟨itp, itq⟩ :: rest)
            ((decOne s itp itq).2 :: (applyDecs (decOne s itp itq).1 rest).2)
            = itq + successQty itp rest (applyDecs (decOne s itp itq).1 rest).2 := by
          rw [successQty_cons, if_pos ⟨hm.1, rfl⟩]
        rw [← h2, hsq]
        refine ⟨?_, by omega, by omega⟩
        rw [ha]
        congr 1
        omega
      · have hu : decOne s itp itq = (s, false) :=
          decOne_self_unmatched s itp itq bigS hnd hs (by omega)
        have hfst : (decOne s itp itq).1 = s := by rw [hu]
        have hsnd : (decOne s itp itq).2 = false := by rw [hu]
        rw [hfst] at h1
        rw [hfst, hsnd] at h2
        obtain ⟨ha, hb, hcb⟩ := ih s s1 (applyDecs s rest).2 bigS hnd hs h0 (by rw [← h1])
        have hsq : successQty itp (⟨itp, itq⟩ :: rest) (false :: (applyDecs s rest).2)
            = 0 + successQty itp rest (applyDecs s rest).2 := by
          rw [successQty_cons, if_neg]
          simp
        rw [← h2, hsq]
        refine ⟨?_, by omega, by omega⟩
        rw [ha]
        congr 1
        omega
    · have hs1 : stockOf (decOne s itp itq).1 pid = some bigS := by
        rw [stockOf_decOne_ne s pid itp itq (fun he => hp he.symm)]
        exact hs
      obtain ⟨ha, hb, hcb⟩ := ih (decOne s itp itq).1 s1
        (applyDecs (decOne s itp itq).1 rest).2 bigS hnd1 hs1 h0 (by rw [← h1])
      have hsq : successQty pid (⟨itp, itq⟩ :: rest)
          ((decOne s itp itq).2 :: (applyDecs (decOne s itp itq).1 rest).2)
          = 0 + successQty pid rest (applyDecs (decOne s itp itq).1 rest).2 := by
        rw [successQty_cons, if_neg (fun hcc => hp hcc.2)]
      rw [← h2, hsq]
      refine ⟨?_, by omega, by omega⟩
      rw [ha]
      congr 1
      omega

theorem findOrder_id (orders : List Order) (oid : Nat) (o : Order)
    (h : findOrder orders oid = some o) : o.id = oid := by
  have := List.find?_some h
  simpa using this

theorem findOrder_mem (orders : List Order) (oid : Nat) (o : Order)
    (h : findOrder orders oid = some o) : o ∈ orders :=
  List.mem_of_find?_eq_some h

theorem saveOrder_of_not_mem (orders : List Order) (o : Order)
    (h : ∀ x ∈ orders, x.id ≠ o.id) : saveOrder orders o = orders := by
  induction orders with
  | nil => rfl
  | cons x rest ih =>
    simp only [saveOrder, List.map_cons, if_neg (h x (List.mem_cons_self x rest))]
    have := ih (fun y hy => h y (List.mem_cons_of_mem x hy))
    simp only [saveOrder] at this
    rw [this]

theorem saveOrder_cons (x : Order) (rest : List Order) (o : Order) :
    saveOrder (x :: rest) o = (if x.id = o.id then o else x) :: saveOrder rest o := rfl

theorem findOrder_cons_pos (x : Order) (rest : List Order) (oid : Nat) (h : x.id = oid) :
    findOrder (x :: rest) oid = some x := by
  simp [findOrder, List.find?_cons_of_pos, h]

theorem findOrder_cons_neg (x : Order) (rest : List Order) (oid : Nat) (h : ¬ x.id = oid) :
    findOrder (x :: rest) oid = findOrder rest oid := by
  simp only [findOrder]
  exact List.find?_cons_of_neg _ (by simpa using h)

theorem saveOrder_map_pres {β : Type} (f : Order → β) (orders : List Order)
    (oid : Nat) (o o1 : Order)
    (hnd : (orders.map (fun x => x.id)).Nodup)
    (h : findOrder orders oid = some o)
    (hid : o1.id = o.id) (hf : f o1 = f o) :
    (saveOrder orders o1).map f = orders.map f := by
  induction orders with
  | nil => rfl
  | cons x rest ih =>
    simp only [List.map_cons, List.nodup_cons] at hnd
    by_cases hb : x.id = oid
    · have hxo : o = x := by
        rw [findOrder_cons_pos x rest oid hb] at h
        exact (Option.some.injEq .. ▸ h).symm
      have hx1 : x.id = o1.id := by rw [hid, hxo]
      have hrest : saveOrder rest o1 = rest := by
        apply saveOrder_of_not_mem
        intro y hy he
        exact hnd.1 (by rw [hx1, ← he]; exact List.mem_map_of_mem (fun z => z.id) hy)
      rw [saveOrder_cons, if_pos hx1, List.map_cons, List.map_cons, hrest, hf, hxo]
    · have hrec : findOrder rest oid = some o := by
        rw [← findOrder_cons_neg x rest oid hb]
        exact h
      have hoid : o.id = oid := findOrder_id rest oid o hrec
      have hx1 : ¬ x.id = o1.id := by rw [hid, hoid]; exact hb
      rw [saveOrder_cons, if_neg hx1, List.map_cons, List.map_cons, ih hnd.2 hrec]

theorem findOrder_save (orders : List Order) (oid : Nat) (o o1 : Order)
    (h : findOrder orders oid = some o) (hid : o1.id = o.id) :
    findOrder (saveOrder orders o1) oid = some o1 := by
  induction orders with
  | nil => simp [findOrder] at h
  | cons x rest ih =>
    by_cases hb : x.id = oid
    · have hxo : o = x := by
        rw [findOrder_cons_pos x rest oid hb] at h
        exact (Option.some.injEq .. ▸ h).symm
      have hx1 : x.id = o1.id := by rw [hid, hxo]
      rw [saveOrder_cons, if_pos hx1]
      exact findOrder_cons_pos o1 (saveOrder rest o1) oid (by rw [hid, hxo, hb])
    · have hrec : findOrder rest oid = some o := by
        rw [← findOrder_cons_neg x rest oid hb]
        exact h
      have hoid : o.id = oid := findOrder_id rest oid o hrec
      have hx1 : ¬ x.id = o1.id := by rw [hid, hoid]; exact hb
      rw [saveOrder_cons, if_neg hx1, findOrder_cons_neg x (saveOrder rest o1) oid hb]
      exact ih hrec

theorem enrichItems_pap (products : List Product) (items : List ItemReq)
    (enriched : List Enriched) (h : enrichItems products items = .ok enriched) :
    ∀ e ∈ enriched, e.priceAtPurchase = e.product.price := by
  induction items generalizing enriched with
  | nil =>
    simp only [enrichItems] at h
    obtain rfl := (Except.ok.injEq .. ▸ h)
    intro e he
    simp at he
  | cons item rest ih =>
    cases hf : products.find? (fun p => p.id == item.productId) with
    | none => simp [enrichItems, hf] at h
    | some p =>
      simp only [enrichItems, hf] at h
      by_cases hst : p.stock < item.quantity
      · rw [if_pos hst] at h; simp at h
      · rw [if_neg hst] at h
        cases hr : enrichItems products rest with
        | error e => simp only [hr] at h; simp at h
        | ok tail =>
          simp only [hr, Except.ok.injEq] at h
          intro e he
          rw [← h] at he
          rcases List.mem_cons.1 he with he | he
          · rw [he]
          · exact ih tail hr e he

theorem calc_ok_shape (store : List Product) (items : List ItemReq)
    (t : Int) (enr : List Enriched)
    (h : calculateTotalAndCheckStock store items = .ok (t, enr)) :
    enrichItems (store.filter (fun p => (items.map (fun i => i.productId)).contains p.id))
        items = .ok enr
      ∧ t = (enr.map (fun e => e.product.price * e.quantity)).sum := by
  simp only [calculateTotalAndCheckStock] at h
  by_cases hl : (store.filter
      (fun p => (items.map (fun i => i.productId)).contains p.id)).length
      ≠ (items.map (fun i => i.productId)).length
  · rw [if_pos hl] at h; simp at h
  · rw [if_neg hl] at h
    cases he : enrichItems (store.filter
        (fun p => (items.map (fun i => i.productId)).contains p.id)) items with
    | error e => simp only [he] at h; simp at h
    | ok enriched =>
      simp only [he, Except.ok.injEq, Prod.mk.injEq] at h
      obtain ⟨h1, h2⟩ := h
      subst h2
      exact ⟨rfl, h1.symm⟩

theorem createOrder_ok_dest (store : List Product) (orders : List Order) (now : Int)
    (nextId : Nat) (req : CreateOrderReq)
    (s1 : List Product) (os1 : List Order) (resp : CreateOrderResp)
    (h : createOrder store orders now nextId req = ((s1, os1), .ok resp)) :
    ∃ t enr, calculateTotalAndCheckStock store req.items = .ok (t, enr)
      ∧ reduceStock store enr = (s1, .ok ())
      ∧ os1 = orders ++ [builtOrder now nextId req t enr]
      ∧ resp = { orderId := nextId, status := .confirmed, totalAmount := t } := by
  simp only [createOrder] at h
  by_cases hg : req.customerId = 0 ∨ req.items = []
  · rw [if_pos hg] at h; simp at h
  · rw [if_neg hg] at h
    cases hc : calculateTotalAndCheckStock store req.items with
    | error e => simp only [hc] at h; simp at h
    | ok te =>
      simp only [hc] at h
      cases hr : reduceStock store te.2 with
      | mk store1 r =>
        cases r with
        | error e => simp only [hr] at h; simp at h
        | ok u =>
          simp only [hr, Prod.mk.injEq, Except.ok.injEq] at h
          refine ⟨te.1, te.2, ?_, ?_, ?_, ?_⟩
          · rfl
          · rw [hr]
            exact Prod.mk.injEq .. ▸ ⟨h.1.1, rfl⟩
          · exact h.1.2.symm
          · exact h.2.symm

theorem createOrder_err_orders (store : List Product) (orders : List Order) (now : Int)
    (nextId : Nat) (req : CreateOrderReq)
    (res : List Product × List Order) (e : ApiError)
    (h : createOrder store orders now nextId req = (res, .error e)) : res.2 = orders := by
  simp only [createOrder] at h
  by_cases hg : req.customerId = 0 ∨ req.items = []
  · rw [if_pos hg] at h
    obtain ⟨h1, _⟩ := Prod.mk.injEq .. ▸ h
    rw [← h1]
  · rw [if_neg hg] at h
    cases hc : calculateTotalAndCheckStock store req.items with
    | error e1 =>
      simp only [hc] at h
      obtain ⟨h1, _⟩ := Prod.mk.injEq .. ▸ h
      rw [← h1]
    | ok te =>
      simp only [hc] at h
      cases hr : reduceStock store te.2 with
      | mk store1 r =>
        cases r with
        | error e1 =>
          simp only [hr] at h
          obtain ⟨h1, _⟩ := Prod.mk.injEq .. ▸ h
          rw [← h1]
        | ok u => simp only [hr] at h; simp at h

theorem decOne_cons_pos (p : Product) (rest : List Product) (pid : ProductId) (q : Int)
    (h : p.id = pid ∧ q ≤ p.stock) :
    decOne (p :: rest) pid q = ({ p with stock := p.stock - q } :: rest, true) := by
  simp [decOne, h]

theorem decOne_cons_neg (p : Product) (rest : List Product) (pid : ProductId) (q : Int)
    (h : ¬ (p.id = pid ∧ q ≤ p.stock)) :
    decOne (p :: rest) pid q
      = (p :: (decOne rest pid q).1, (decOne rest pid q).2) := by
  simp [decOne, h]

/-- C2: the cancel branch only refuses orders whose status is shipped,
out_for_delivery or delivered, so a second cancel of an already-cancelled
order is accepted: it returns ok and re-increments the product's stock
(7 becomes 9 here), releasing the same two units a second time instead of
failing with an invalid-transition error. -/
theorem c2_double_cancel_double_release :
    cancelOrder [⟨1, "P", 100, 7⟩]
        [⟨5, 9, [⟨1, 2, 100⟩], 200, none, .cancelled, 0, 0, none⟩] 99 5
      = (([⟨1, "P", 100, 9⟩],
          [⟨5, 9, [⟨1, 2, 100⟩], 200, none, .cancelled, 0, 99, none⟩]),
         .ok (5, .cancelled)) := rfl

/-- C3: stock stays a non-negative integer under any sequence of reserve
decrements: each conditional decrement of quantity q only matches when the
current stock is at least q (otherwise the store is unchanged), so starting
from stock S ≥ 0 the product's stock always equals S minus the total quantity
of the successful decrements, that value never goes below zero, and the total
successfully reserved quantity never exceeds S. -/
theorem c3_stock_never_negative_no_oversell (store s1 : List Product)
    (steps : List StockItem) (ms : List Bool) (pid : ProductId) (bigS : Int)
    (hnd : (store.map (fun p => p.id)).Nodup)
    (hs : stockOf store pid = some bigS) (h0 : 0 ≤ bigS)
    (h : applyDecs store steps = (s1, ms)) :
    stockOf s1 pid = some (bigS - successQty pid steps ms) ∧
      0 ≤ bigS - successQty pid steps ms ∧ successQty pid steps ms ≤ bigS :=
  applyDecs_bound steps store s1 ms pid bigS hnd hs h0 h

theorem c3_stock_never_negative_no_oversell_witness :
    stockOf [⟨1, "A", 10, 0⟩] 1
        = some (5 - successQty 1 [⟨1, 2⟩, ⟨1, 9⟩, ⟨1, 3⟩] [true, false, true]) ∧
      0 ≤ 5 - successQty 1 [⟨1, 2⟩, ⟨1, 9⟩, ⟨1, 3⟩] [true, false, true] ∧
      successQty 1 [⟨1, 2⟩, ⟨1, 9⟩, ⟨1, 3⟩] [true, false, true] ≤ 5 :=
  c3_stock_never_negative_no_oversell [⟨1, "A", 10, 5⟩] [⟨1, "A", 10, 0⟩]
    [⟨1, 2⟩, ⟨1, 9⟩, ⟨1, 3⟩] [true, false, true] 1 5
    (by decide) (by decide) (by decide) (by decide)

/-- C4: a fully successful reserve followed by a release of the same items
restores every product's stock to exactly its pre-reserve value, for any
store whose product identifiers are distinct. -/
theorem c4_reserve_release_roundtrip (store s1 : List Product) (enr : List Enriched)
    (hnd : (store.map (fun p => p.id)).Nodup)
    (h : reduceStock store enr = (s1, .ok ())) :
    restoreStock s1 (enr.map Enriched.toStockItem) = store := by
  simp only [reduceStock] at h
  cases hff : firstFailure (enr.map Enriched.toStockItem)
      (applyDecs store (enr.map Enriched.toStockItem)).2 with
  | some pid => simp only [hff] at h; simp at h
  | none =>
    simp only [hff] at h
    obtain ⟨h1, _⟩ := Prod.mk.injEq .. ▸ h
    have hall := firstFailure_none_all (enr.map Enriched.toStockItem)
      (applyDecs store (enr.map Enriched.toStockItem)).2 hff (by rw [applyDecs_len])
    rw [← h1]
    exact applyDecs_restore (enr.map Enriched.toStockItem) store _ _ hnd rfl hall

theorem c4_reserve_release_roundtrip_witness :
    restoreStock [⟨1, "A", 10, 3⟩, ⟨2, "B", 20, 4⟩]
        ([⟨⟨1, "A", 10, 5⟩, 2, 10⟩, ⟨⟨2, "B", 20, 7⟩, 3, 20⟩].map Enriched.toStockItem)
      = [⟨1, "A", 10, 5⟩, ⟨2, "B", 20, 7⟩] :=
  c4_reserve_release_roundtrip [⟨1, "A", 10, 5⟩, ⟨2, "B", 20, 7⟩]
    [⟨1, "A", 10, 3⟩, ⟨2, "B", 20, 4⟩]
    [⟨⟨1, "A", 10, 5⟩, 2, 10⟩, ⟨⟨2, "B", 20, 7⟩, 3, 20⟩] (by decide) rfl

/-- C7: cancelling an order whose status is shipped, out_for_delivery or
delivered fails with the cannot-cancel error and leaves both the store and
the orders (hence the order's status) untouched. -/
theorem c7_cancel_blocked_after_shipping (store : List Product) (orders : List Order)
    (now : Int) (oid : Nat) (o : Order)
    (h : findOrder orders oid = some o)
    (hst : o.status = .shipped ∨ o.status = .out_for_delivery ∨ o.status = .delivered) :
    cancelOrder store orders now oid = ((store, orders), .error .cannotCancelShipped) := by
  have hb : blockedForCancel o.status = true := by
    rcases hst with h1 | h1 | h1 <;> rw [h1] <;> rfl
  simp [cancelOrder, h, hb]

theorem c7_cancel_blocked_after_shipping_witness :
    cancelOrder [⟨1, "A", 10, 4⟩] [⟨3, 2, [⟨1, 2, 10⟩], 20, none, .shipped, 0, 0, none⟩] 5 3
      = (([⟨1, "A", 10, 4⟩], [⟨3, 2, [⟨1, 2, 10⟩], 20, none, .shipped, 0, 0, none⟩]),
         .error .cannotCancelShipped) :=
  c7_cancel_blocked_after_shipping [⟨1, "A", 10, 4⟩]
    [⟨3, 2, [⟨1, 2, 10⟩], 20, none, .shipped, 0, 0, none⟩] 5 3
    ⟨3, 2, [⟨1, 2, 10⟩], 20, none, .shipped, 0, 0, none⟩ rfl (Or.inl rfl)

/-- C8: the generic status branch performs no transition validation: for any
existing order and any status value of the enumeration it succeeds, and the
stored order afterwards carries exactly the requested status, whatever the
previous status was. -/
theorem c8_set_status_unconditional (orders : List Order) (now : Int) (oid : Nat)
    (st : OrderStatus) (o : Order) (h : findOrder orders oid = some o) :
    (setStatus orders now oid st).2 = .ok (oid, st) ∧
    findOrder (setStatus orders now oid st).1 oid
      = some { o with status := st, updatedAt := now } := by
  constructor
  · simp [setStatus, h]
  · simp only [setStatus, h]
    exact findOrder_save orders oid o _ h rfl

theorem c8_set_status_unconditional_witness :
    (setStatus [⟨4, 2, [], 0, none, .delivered, 0, 0, none⟩] 9 4 .pending).2
        = .ok (4, .pending) ∧
    findOrder (setStatus [⟨4, 2, [], 0, none, .delivered, 0, 0, none⟩] 9 4 .pending).1 4
      = some ⟨4, 2, [], 0, none, .pending, 0, 9, none⟩ :=
  c8_set_status_unconditional [⟨4, 2, [], 0, none, .delivered, 0, 0, none⟩] 9 4 .pending
    ⟨4, 2, [], 0, none, .delivered, 0, 0, none⟩ rfl

/-- C9: release has no failure path: the stock of each product named by the
released items is unconditionally incremented by the released quantity with
no non-negativity condition, an item whose product no longer exists in the
store is silently skipped, and cancellation succeeds — marking the order
cancelled and returning ok — for every store, including stores in which the
order's products are missing. -/
theorem c9_release_never_fails (store : List Product) (items : List StockItem)
    (pid : ProductId) (x q : Int) (orders : List Order) (now : Int) (oid : Nat)
    (o : Order) :
    (stockOf store pid = some x →
      stockOf (restoreStock store items) pid = some (x + releasedQty pid items))
    ∧ (stockOf store pid = none → restoreStock store [⟨pid, q⟩] = store)
    ∧ (findOrder orders oid = some o → blockedForCancel o.status = false →
        cancelOrder store orders now oid
          = ((restoreStock store (o.items.map (fun it => ⟨it.product, it.quantity⟩)),
              saveOrder orders { o with status := .cancelled, updatedAt := now }),
             .ok (oid, .cancelled))) := by
  refine ⟨fun hs => restore_stockOf items store pid x hs, fun hn => ?_, fun hf hb => ?_⟩
  · show incOne store pid q = store
    exact incOne_of_not_mem store pid q (stockOf_none_not_mem store pid hn)
  · simp [cancelOrder, hf, hb]

theorem c9_release_never_fails_witness :
    (stockOf (restoreStock [⟨1, "P", 5, 7⟩] [⟨1, 2⟩]) 1
        = some (7 + releasedQty 1 [⟨1, 2⟩]))
    ∧ restoreStock [⟨2, "Q", 5, 9⟩] [⟨1, 4⟩] = [⟨2, "Q", 5, 9⟩]
    ∧ cancelOrder [⟨2, "Q", 5, 9⟩] [⟨3, 8, [⟨1, 1, 5⟩], 5, none, .confirmed, 0, 0, none⟩] 50 3
        = ((restoreStock [⟨2, "Q", 5, 9⟩]
              (([⟨1, 1, 5⟩] : List OrderItem).map (fun it => ⟨it.product, it.quantity⟩)),
            saveOrder [⟨3, 8, [⟨1, 1, 5⟩], 5, none, .confirmed, 0, 0, none⟩]
              ⟨3, 8, [⟨1, 1, 5⟩], 5, none, .cancelled, 0, 50, none⟩),
           .ok (3, .cancelled)) :=
  ⟨(c9_release_never_fails [⟨1, "P", 5, 7⟩] [⟨1, 2⟩] 1 7 0 [] 0 0
      ⟨0, 0, [], 0, none, .pending, 0, 0, none⟩).1 rfl,
   (c9_release_never_fails [⟨2, "Q", 5, 9⟩] [] 1 0 4 [] 0 0
      ⟨0, 0, [], 0, none, .pending, 0, 0, none⟩).2.1 rfl,
   (c9_release_never_fails [⟨2, "Q", 5, 9⟩] [] 1 0 0
      [⟨3, 8, [⟨1, 1, 5⟩], 5, none, .confirmed, 0, 0, none⟩] 50 3
      ⟨3, 8, [⟨1, 1, 5⟩], 5, none, .confirmed, 0, 0, none⟩).2.2 rfl rfl⟩

/-- C5: an order created by a successful createOrder has its total amount
equal to the sum of priceAtPurchase × quantity over its items, with the
price snapshotted from the store at creation time, and the response reports
that same total; no later lifecycle operation (cancel, generic status update,
shipping-address update) changes any order's total amount or items. -/
theorem c5_total_amount_invariant (store : List Product) (orders : List Order)
    (now : Int) (nid : Nat) (req : CreateOrderReq) (s1 : List Product)
    (os1 : List Order) (resp : CreateOrderResp) (oid : Nat) (st : OrderStatus)
    (addr : String)
    (hnd : (orders.map (fun x => x.id)).Nodup) :
    (createOrder store orders now nid req = ((s1, os1), .ok resp) →
      ∃ o, os1 = orders ++ [o] ∧ o.totalAmount = itemsTotal o.items
        ∧ resp.totalAmount = o.totalAmount)
    ∧ ((cancelOrder store orders now oid).1.2.map (fun o => (o.totalAmount, o.items))
        = orders.map (fun o => (o.totalAmount, o.items)))
    ∧ ((setStatus orders now oid st).1.map (fun o => (o.totalAmount, o.items))
        = orders.map (fun o => (o.totalAmount, o.items)))
    ∧ ((updateShippingAddress orders now oid addr).1.map
          (fun o => (o.totalAmount, o.items))
        = orders.map (fun o => (o.totalAmount, o.items))) := by
  refine ⟨?_, ?_, ?_, ?_⟩
  · intro h
    obtain ⟨t, enr, hc, hr, ho, hresp⟩ :=
      createOrder_ok_dest store orders now nid req s1 os1 resp h
    refine ⟨builtOrder now nid req t enr, ho, ?_, by rw [hresp]; rfl⟩
    obtain ⟨hee, ht⟩ := calc_ok_shape store req.items t enr hc
    have hpap := enrichItems_pap _ req.items enr hee
    show t = itemsTotal (enr.map (fun e =>
      { product := e.product.id, quantity := e.quantity,
        priceAtPurchase := e.priceAtPurchase }))
    rw [ht]
    simp only [itemsTotal, List.map_map]
    congr 1
    apply List.map_congr_left
    intro e he
    show e.product.price * e.quantity = e.priceAtPurchase * e.quantity
    rw [hpap e he]
  · cases hf : findOrder orders oid with
    | none => simp [cancelOrder, hf]
    | some o =>
      by_cases hb : blockedForCancel o.status = true
      · simp [cancelOrder, hf, hb]
      · have hb' : blockedForCancel o.status = false := by
          simpa using hb
        simp only [cancelOrder, hf, hb', Bool.false_eq_true, if_false]
        exact saveOrder_map_pres _ orders oid o _ hnd hf rfl rfl
  · cases hf : findOrder orders oid with
    | none => simp [setStatus, hf]
    | some o =>
      simp only [setStatus, hf]
      exact saveOrder_map_pres _ orders oid o _ hnd hf rfl rfl
  · cases hf : findOrder orders oid with
    | none => simp [updateShippingAddress, hf]
    | some o =>
      by_cases hb : blockedForCancel o.status = true
      · simp [updateShippingAddress, hf, hb]
      · have hb' : blockedForCancel o.status = false := by
          simpa using hb
        simp only [updateShippingAddress, hf, hb', Bool.false_eq_true, if_false]
        exact saveOrder_map_pres _ orders oid o _ hnd hf rfl rfl

theorem c5_total_amount_invariant_witness :
    (∃ o, [⟨42, 7, [⟨1, 2, 10⟩], 20, none, .confirmed, 0, 0, some 432000000⟩]
          = ([] : List Order) ++ [o]
        ∧ o.totalAmount = itemsTotal o.items
        ∧ (⟨42, .confirmed, 20⟩ : CreateOrderResp).totalAmount = o.totalAmount)
    ∧ ((cancelOrder [⟨1, "A", 10, 5⟩] [] 0 3).1.2.map (fun o => (o.totalAmount, o.items))
        = ([] : List Order).map (fun o => (o.totalAmount, o.items)))
    ∧ ((setStatus [] 0 3 .pending).1.map (fun o => (o.totalAmount, o.items))
        = ([] : List Order).map (fun o => (o.totalAmount, o.items)))
    ∧ ((updateShippingAddress [] 0 3 "x").1.map (fun o => (o.totalAmount, o.items))
        = ([] : List Order).map (fun o => (o.totalAmount, o.items))) :=
  ⟨(c5_total_amount_invariant [⟨1, "A", 10, 5⟩] [] 0 42 ⟨7, [⟨1, 2⟩], none⟩
      [⟨1, "A", 10, 3⟩]
      [⟨42, 7, [⟨1, 2, 10⟩], 20, none, .confirmed, 0, 0, some 432000000⟩]
      ⟨42, .confirmed, 20⟩ 3 .pending "x" (by decide)).1 rfl,
   (c5_total_amount_invariant [⟨1, "A", 10, 5⟩] [] 0 42 ⟨7, [⟨1, 2⟩], none⟩
      [⟨1, "A", 10, 3⟩]
      [⟨42, 7, [⟨1, 2, 10⟩], 20, none, .confirmed, 0, 0, some 432000000⟩]
      ⟨42, .confirmed, 20⟩ 3 .pending "x" (by decide)).2⟩

/-- C6: a successful createOrder appends exactly one order, whose status is
confirmed, whose creation time is the current time, whose estimated delivery
is the creation time plus five days (in milliseconds), and the success
response carries that order's identifier, status and total amount. -/
theorem c6_create_order_success_shape (store : List Product) (orders : List Order)
    (now : Int) (nid : Nat) (req : CreateOrderReq) (s1 : List Product)
    (os1 : List Order) (resp : CreateOrderResp)
    (h : createOrder store orders now nid req = ((s1, os1), .ok resp)) :
    ∃ o, os1 = orders ++ [o] ∧ o.status = .confirmed ∧ o.createdAt = now
      ∧ o.estimatedDelivery = some (now + 5 * 24 * 60 * 60 * 1000)
      ∧ resp = { orderId := o.id, status := o.status, totalAmount := o.totalAmount } := by
  obtain ⟨t, enr, hc, hr, ho, hresp⟩ :=
    createOrder_ok_dest store orders now nid req s1 os1 resp h
  exact ⟨builtOrder now nid req t enr, ho, rfl, rfl, rfl, by rw [hresp]; rfl⟩

theorem c6_create_order_success_shape_witness :
    ∃ o, [⟨42, 7, [⟨1, 2, 10⟩], 20, none, .confirmed, 0, 0, some 432000000⟩]
          = ([] : List Order) ++ [o]
        ∧ o.status = .confirmed ∧ o.createdAt = 0
        ∧ o.estimatedDelivery = some (0 + 5 * 24 * 60 * 60 * 1000)
        ∧ (⟨42, .confirmed, 20⟩ : CreateOrderResp)
            = { orderId := o.id, status := o.status, totalAmount := o.totalAmount } :=
  c6_create_order_success_shape [⟨1, "A", 10, 5⟩] [] 0 42 ⟨7, [⟨1, 2⟩], none⟩
    [⟨1, "A", 10, 3⟩] [⟨42, 7, [⟨1, 2, 10⟩], 20, none, .confirmed, 0, 0, some 432000000⟩]
    ⟨42, .confirmed, 20⟩ rfl

/-- C10: when the requested item list names the same product twice, the $in
query returns each matching document once, so the count check fails and
validation rejects the request with the products-not-found error even though
every referenced product exists (no hypothesis on stock sufficiency is even
needed); createOrder consequently changes no stock and creates no order. -/
theorem c10_duplicate_items_rejected (store : List Product) (items : List ItemReq)
    (orders : List Order) (now : Int) (nid : Nat) (cid : Nat) (addr : Option String)
    (hnd : (store.map (fun p => p.id)).Nodup)
    (hdup : ¬ (items.map (fun i => i.productId)).Nodup)
    (hc : ¬ cid = 0) (hi : ¬ items = []) :
    calculateTotalAndCheckStock store items = .error .productsNotFound
    ∧ createOrder store orders now nid ⟨cid, items, addr⟩
        = ((store, orders), .error .productsNotFound) := by
  have hlen : (store.filter
        (fun p => (items.map (fun i => i.productId)).contains p.id)).length
      < (items.map (fun i => i.productId)).length := by
    have h1 : ((store.filter
        (fun p => (items.map (fun i => i.productId)).contains p.id)).map
          (fun p => p.id)).Nodup :=
      List.Nodup.sublist (List.Sublist.map _ (List.filter_sublist store)) hnd
    have h2 : ((store.filter
        (fun p => (items.map (fun i => i.productId)).contains p.id)).map
          (fun p => p.id))
        ⊆ (items.map (fun i => i.productId)).dedup := by
      intro x hx
      obtain ⟨p, hp, hpx⟩ := List.mem_map.1 hx
      have hfp := List.mem_filter.1 hp
      rw [List.mem_dedup, ← hpx]
      exact List.elem_iff.1 hfp.2
    have h3 := (List.Nodup.subperm h1 h2).length_le
    have h4 : (items.map (fun i => i.productId)).dedup.length
        < (items.map (fun i => i.productId)).length := by
      rcases Nat.lt_or_ge (items.map (fun i => i.productId)).dedup.length
          (items.map (fun i => i.productId)).length with hl | hg
      · exact hl
      · exfalso
        have hle := (List.dedup_sublist (items.map (fun i => i.productId))).length_le
        have heq := Nat.le_antisymm hle hg
        have hde := (List.dedup_sublist (items.map (fun i => i.productId))).eq_of_length heq
        exact hdup (hde ▸ List.nodup_dedup (items.map (fun i => i.productId)))
    calc (store.filter
          (fun p => (items.map (fun i => i.productId)).contains p.id)).length
        = ((store.filter
            (fun p => (items.map (fun i => i.productId)).contains p.id)).map
              (fun p => p.id)).length := (List.length_map _ _).symm
      _ ≤ (items.map (fun i => i.productId)).dedup.length := h3
      _ < (items.map (fun i => i.productId)).length := h4
  have hne : (store.filter
        (fun p => (items.map (fun i => i.productId)).contains p.id)).length
      ≠ (items.map (fun i => i.productId)).length := Nat.ne_of_lt hlen
  have hcalc : calculateTotalAndCheckStock store items = .error .productsNotFound := by
    simp only [calculateTotalAndCheckStock]
    rw [if_pos hne]
  refine ⟨hcalc, ?_⟩
  simp only [createOrder]
  rw [if_neg (show ¬ (cid = 0 ∨ items = []) from fun hor => hor.elim hc hi)]
  simp only [hcalc]

theorem c10_duplicate_items_rejected_witness :
    calculateTotalAndCheckStock [⟨1, "A", 10, 9⟩] [⟨1, 1⟩, ⟨1, 1⟩]
        = .error .productsNotFound
    ∧ createOrder [⟨1, "A", 10, 9⟩] [] 0 42 ⟨7, [⟨1, 1⟩, ⟨1, 1⟩], none⟩
        = (([⟨1, "A", 10, 9⟩], []), .error .productsNotFound) :=
  c10_duplicate_items_rejected [⟨1, "A", 10, 9⟩] [⟨1, 1⟩, ⟨1, 1⟩] [] 0 42 7 none
    (by decide) (by decide) (by decide) (by decide)

/-- C1 as stated is false on this code: the reserve step does not compensate.
Concretely, with products 1 (stock 5) and 2 (stock 0) and a request for 2
units of product 1 and 3 units of product 2, the decrement of product 1
matches and the decrement of product 2 does not, so reserve fails naming
product 2 — but product 1 is left at stock 3, not re-incremented to 5, so
stock is not as it was before the call. -/
theorem c1_reserve_rollback_counterexample :
    reduceStock [⟨1, "A", 10, 5⟩, ⟨2, "B", 20, 0⟩]
        [⟨⟨1, "A", 10, 5⟩, 2, 10⟩, ⟨⟨2, "B", 20, 0⟩, 3, 20⟩]
      = ([⟨1, "A", 10, 3⟩, ⟨2, "B", 20, 0⟩], .error (.reserveFailed 2))
    ∧ ¬ ([⟨1, "A", 10, 3⟩, ⟨2, "B", 20, 0⟩] : List Product)
        = [⟨1, "A", 10, 5⟩, ⟨2, "B", 20, 0⟩] :=
  ⟨rfl, by decide⟩

theorem firstFailure_split (pre post : List StockItem) (it : StockItem)
    (ms1 ms2 : List Bool) (hlen : ms1.length = pre.length)
    (hall : ∀ m ∈ ms1, m = true) :
    firstFailure (pre ++ it :: post) (ms1 ++ false :: ms2) = some it.product := by
  induction pre generalizing ms1 with
  | nil =>
    cases ms1 with
    | nil => rfl
    | cons m ms' => simp at hlen
  | cons p pre' ih =>
    cases ms1 with
    | nil => simp at hlen
    | cons m ms' =>
      have hm : m = true := hall m (List.mem_cons_self m ms')
      subst hm
      simp only [List.cons_append, firstFailure, if_pos rfl]
      exact ih ms' (by simpa using hlen)
        (fun x hx => hall x (List.mem_cons_of_mem true hx))

theorem applyDecs_stockOf (steps : List StockItem) (s s1 : List Product)
    (ms : List Bool) (pid : ProductId) (bigS : Int)
    (hnd : (s.map (fun p => p.id)).Nodup)
    (hs : stockOf s pid = some bigS)
    (h : applyDecs s steps = (s1, ms)) :
    stockOf s1 pid = some (bigS - successQty pid steps ms) := by
  induction steps generalizing s s1 ms bigS with
  | nil =>
    simp only [applyDecs] at h
    obtain ⟨h1, h2⟩ := Prod.mk.injEq .. ▸ h
    subst h1
    subst h2
    rw [hs]
    simp [successQty]
  | cons it rest ih =>
    obtain ⟨itp, itq⟩ := it
    simp only [applyDecs] at h
    obtain ⟨h1, h2⟩ := Prod.mk.injEq .. ▸ h
    have hnd1 : (((decOne s itp itq).1).map (fun p => p.id)).Nodup := by
      rw [decOne_ids]; exact hnd
    by_cases hp : itp = pid
    · subst hp
      by_cases hq : itq ≤ bigS
      · have hm := decOne_self_matched s itp itq bigS hs hq
        have ha := ih (decOne s itp itq).1 s1
          (applyDecs (decOne s itp itq).1 rest).2 (bigS - itq) hnd1 hm.2 (by rw [← h1])
        have hsq : successQty itp (⟨itp, itq⟩ :: rest)
            ((decOne s itp itq).2 :: (applyDecs (decOne s itp itq).1 rest).2)
            = itq + successQty itp rest (applyDecs (decOne s itp itq).1 rest).2 := by
          rw [successQty_cons, if_pos ⟨hm.1, rfl⟩]
        rw [← h2, hsq, ha]
        congr 1
        omega
      · have hu : decOne s itp itq = (s, false) :=
          decOne_self_unmatched s itp itq bigS hnd hs (by omega)
        have hfst : (decOne s itp itq).1 = s := by rw [hu]
        have hsnd : (decOne s itp itq).2 = false := by rw [hu]
        rw [hfst] at h1
        rw [hfst, hsnd] at h2
        have ha := ih s s1 (applyDecs s rest).2 bigS hnd hs (by rw [← h1])
        have hsq : successQty itp (⟨itp, itq⟩ :: rest) (false :: (applyDecs s rest).2)
            = 0 + successQty itp rest (applyDecs s rest).2 := by
          rw [successQty_cons, if_neg]
          simp
        rw [← h2, hsq, ha]
        congr 1
        omega
    · have hs1 : stockOf (decOne s itp itq).1 pid = some bigS := by
        rw [stockOf_decOne_ne s pid itp itq (fun he => hp he.symm)]
        exact hs
      have ha := ih (decOne s itp itq).1 s1
        (applyDecs (decOne s itp itq).1 rest).2 bigS hnd1 hs1 (by rw [← h1])
      have hsq : successQty pid (⟨itp, itq⟩ :: rest)
          ((decOne s itp itq).2 :: (applyDecs (decOne s itp itq).1 rest).2)
          = 0 + successQty pid rest (applyDecs (decOne s itp itq).1 rest).2 := by
        rw [successQty_cons, if_neg (fun hcc => hp hcc.2)]
      rw [← h2, hsq, ha]
      congr 1
      omega

/-- C1 amended: whenever any individual decrement fails during reserve — for
a store and an item list of any size, with the first unmatched conditional
decrement at any position (items before it all matched; items after it are
unconstrained) — the call returns the partially-updated store with the
reserve-failed error naming that item's product, and every product's
resulting stock equals its initial stock minus the total quantity of the
successful decrements that targeted it, so the items whose decrements
succeeded are NOT re-incremented; and a failed createOrder creates no
Order. -/
theorem c1_reserve_no_rollback_amended (store s1 : List Product)
    (enr : List Enriched) (pre post : List StockItem) (it : StockItem)
    (ms1 ms2 : List Bool)
    (hpairs : enr.map Enriched.toStockItem = pre ++ it :: post)
    (happ : applyDecs store (enr.map Enriched.toStockItem) = (s1, ms1 ++ false :: ms2))
    (hlen : ms1.length = pre.length)
    (hall : ∀ m ∈ ms1, m = true) :
    reduceStock store enr = (s1, .error (.reserveFailed it.product))
    ∧ (∀ (pid : ProductId) (bigS : Int), (store.map (fun p => p.id)).Nodup →
        stockOf store pid = some bigS →
        stockOf s1 pid
          = some (bigS - successQty pid (enr.map Enriched.toStockItem)
              (ms1 ++ false :: ms2)))
    ∧ ∀ (store2 : List Product) (orders : List Order) (now : Int) (nid : Nat)
        (req : CreateOrderReq) (res : List Product × List Order) (e2 : ApiError),
        createOrder store2 orders now nid req = (res, .error e2) → res.2 = orders := by
  refine ⟨?_, ?_, ?_⟩
  · have hff : firstFailure (enr.map Enriched.toStockItem) (ms1 ++ false :: ms2)
        = some it.product := by
      rw [hpairs]
      exact firstFailure_split pre post it ms1 ms2 hlen hall
    simp only [reduceStock, happ, hff]
  · intro pid bigS hnd hs
    exact applyDecs_stockOf (enr.map Enriched.toStockItem) store s1
      (ms1 ++ false :: ms2) pid bigS hnd hs happ
  · intro store2 orders now nid req res e2 h
    exact createOrder_err_orders store2 orders now nid req res e2 h

theorem c1_reserve_no_rollback_amended_witness :
    reduceStock [⟨1, "A", 10, 5⟩, ⟨2, "B", 20, 0⟩, ⟨3, "C", 30, 4⟩]
        [⟨⟨1, "A", 10, 5⟩, 2, 10⟩, ⟨⟨2, "B", 20, 0⟩, 3, 20⟩, ⟨⟨3, "C", 30, 4⟩, 4, 30⟩]
      = ([⟨1, "A", 10, 3⟩, ⟨2, "B", 20, 0⟩, ⟨3, "C", 30, 0⟩],
         .error (.reserveFailed 2))
    ∧ stockOf [⟨1, "A", 10, 3⟩, ⟨2, "B", 20, 0⟩, ⟨3, "C", 30, 0⟩] 1
        = some (5 - successQty 1
            ([⟨⟨1, "A", 10, 5⟩, 2, 10⟩, ⟨⟨2, "B", 20, 0⟩, 3, 20⟩,
              ⟨⟨3, "C", 30, 4⟩, 4, 30⟩].map Enriched.toStockItem)
            ([true] ++ false :: [true]))
    ∧ (createOrder [] [] 0 7 ⟨5, [⟨1, 1⟩], none⟩).1.2 = ([] : List Order) :=
  ⟨(c1_reserve_no_rollback_amended
      [⟨1, "A", 10, 5⟩, ⟨2, "B", 20, 0⟩, ⟨3, "C", 30, 4⟩]
      [⟨1, "A", 10, 3⟩, ⟨2, "B", 20, 0⟩, ⟨3, "C", 30, 0⟩]
      [⟨⟨1, "A", 10, 5⟩, 2, 10⟩, ⟨⟨2, "B", 20, 0⟩, 3, 20⟩, ⟨⟨3, "C", 30, 4⟩, 4, 30⟩]
      [⟨1, 2⟩] [⟨3, 4⟩] ⟨2, 3⟩ [true] [true]
      rfl rfl rfl (by decide)).1,
   (c1_reserve_no_rollback_amended
      [⟨1, "A", 10, 5⟩, ⟨2, "B", 20, 0⟩, ⟨3, "C", 30, 4⟩]
      [⟨1, "A", 10, 3⟩, ⟨2, "B", 20, 0⟩, ⟨3, "C", 30, 0⟩]
      [⟨⟨1, "A", 10, 5⟩, 2, 10⟩, ⟨⟨2, "B", 20, 0⟩, 3, 20⟩, ⟨⟨3, "C", 30, 4⟩, 4, 30⟩]
      [⟨1, 2⟩] [⟨3, 4⟩] ⟨2, 3⟩ [true] [true]
      rfl rfl rfl (by decide)).2.1 1 5 (by decide) (by decide),
   (c1_reserve_no_rollback_amended
      [⟨1, "A", 10, 5⟩, ⟨2, "B", 20, 0⟩, ⟨3, "C", 30, 4⟩]
      [⟨1, "A", 10, 3⟩, ⟨2, "B", 20, 0⟩, ⟨3, "C", 30, 0⟩]
      [⟨⟨1, "A", 10, 5⟩, 2, 10⟩, ⟨⟨2, "B", 20, 0⟩, 3, 20⟩, ⟨⟨3, "C", 30, 4⟩, 4, 30⟩]
      [⟨1, 2⟩] [⟨3, 4⟩] ⟨2, 3⟩ [true] [true]
      rfl rfl rfl (by decide)).2.2 [] [] 0 7 ⟨5, [⟨1, 1⟩], none⟩
      (createOrder [] [] 0 7 ⟨5, [⟨1, 1⟩], none⟩).1 .productsNotFound rfl⟩

end Ecom
